import Mathlib

/-!
# Knowledge Compression Engine — verification

Shallow embedding of the `KnowledgeCompressor` class of
`src/universal_knowledge/core/compressor.py` and proofs about its
budget allocator (`filter_by_importance`), its renderer
(`format_for_claude_code`, `_format_tree`, `format_as_markdown`), its
error post-processing (`_find_current_errors`) and the exception
behaviour of its collectors (`_get_project_info`,
`_extract_errors_from_file`).

Modelling conventions:
* Python dict payloads become Lean structures; a key that may be absent
  from a dict becomes an `Option` field.
* `json.dumps(x, ensure_ascii=False)` is modelled by the `dump*`
  functions below, reproducing Python's separators (`", "`, `": "`),
  insertion-ordered keys and string escaping; `len` counts code points
  in both languages.
* The allocator's float arithmetic (`tokens = len(content) * 0.25`,
  `estimated_tokens + tokens <= max_tokens`) involves only exact
  multiples of 1/4 (far below the 2^52 precision bound), so it is
  embedded exactly in integer quarter-tokens: the running counter holds
  `4 * estimated_tokens` and the test reads `est + len ≤ 4 * max_tokens`.
* Python exception propagation is modelled with `Except`; a
  `try/except: pass` block becomes a `match` on the fallible operation.
-/

namespace UKF

/-- Python string slicing `s[:n]` (the first `n` code points). -/
def pyTake (s : String) (n : Nat) : String := String.mk (s.data.take n)

/-- The whitespace set stripped by Python's `str.strip()`. -/
def pySpace (c : Char) : Bool :=
  c == ' ' || c == '\t' || c == '\n' || c == '\r' || c == Char.ofNat 11 || c == Char.ofNat 12

/-- Python `str.strip()`. -/
def pyStrip (s : String) : String :=
  String.mk (((s.data.dropWhile pySpace).reverse.dropWhile pySpace).reverse)

/-- Does the list start with the pattern `p`? -/
def startsWithL : List Char → List Char → Bool
  | [], _ => true
  | _ :: _, [] => false
  | p :: ps, c :: cs => p == c && startsWithL ps cs

/-- Does the list contain `p` as a contiguous sublist? -/
def containsL (p : List Char) : List Char → Bool
  | [] => p.isEmpty
  | c :: cs => startsWithL p (c :: cs) || containsL p cs

/-- Python's substring test `pat in s`. -/
def strContains (s pat : String) : Bool := containsL pat.data s.data

/-- Lowercase hexadecimal digit, as produced by Python's `\u%04x` escapes. -/
def hexDigit (n : Nat) : Char := if n < 10 then Char.ofNat (48 + n) else Char.ofNat (87 + n)

/-- Escaping of one character by `json.dumps(..., ensure_ascii=False)`:
quote and backslash are escaped, control characters use the short
escapes or `\u00XX`, everything else (including non-ASCII) is kept. -/
def escapeChar (c : Char) : String :=
  if c = '"' then "\\\""
  else if c = '\\' then "\\\\"
  else if c = '\n' then "\\n"
  else if c = '\t' then "\\t"
  else if c = '\r' then "\\r"
  else if c = Char.ofNat 8 then "\\b"
  else if c = Char.ofNat 12 then "\\f"
  else if c.toNat < 32 then
    String.mk ['\\', 'u', '0', '0', hexDigit (c.toNat / 16), hexDigit (c.toNat % 16)]
  else String.singleton c

/-- JSON string literal, as serialized by `json.dumps`. -/
def jsonStr (s : String) : String :=
  "\"" ++ String.join (s.data.map escapeChar) ++ "\""

/-- JSON array from already-serialized elements (separator `", "`). -/
def jsonArr (elems : List String) : String :=
  "[" ++ String.intercalate (", ") elems ++ "]"

/-- JSON object from already-serialized values (separators `", "`, `": "`),
keys in insertion order as in a Python dict. -/
def jsonObj (fields : List (String × String)) : String :=
  "\x7b" ++ String.intercalate (", ") (fields.map (fun f => jsonStr f.1 ++ (": ") ++ f.2)) ++ "\x7d"

/-! ## Data model -/

/-- Payload of the `project_info` section (`_get_project_info`):
`{name, path, type, optional description}`.  The dict key `type` is the
Lean field `ptype`. -/
structure ProjInfo where
  name : String
  path : String
  ptype : String
  description : Option String

/-- One entry of `current_errors`.  `_extract_errors_from_file` builds
dicts with keys `type, file, line, message, timestamp`;
`_check_docker_errors` builds dicts with keys
`type, container, message, timestamp` and `type` fixed to `"Docker"`. -/
inductive ErrorEntry where
  | log (etype file : String) (line : Nat) (message timestamp : String)
  | docker (container message timestamp : String)

/-- The `type` field of an error entry. -/
def ErrorEntry.etype : ErrorEntry → String
  | .log t _ _ _ _ => t
  | .docker _ _ _ => "Docker"

/-- The `message` field of an error entry. -/
def ErrorEntry.message : ErrorEntry → String
  | .log _ _ _ m _ => m
  | .docker _ m _ => m

/-- The `timestamp` field of an error entry. -/
def ErrorEntry.timestamp : ErrorEntry → String
  | .log _ _ _ _ ts => ts
  | .docker _ _ ts => ts

/-- One task of the `tasks` section: `{content, status, priority}`. -/
structure Task where
  content : String
  status : String
  priority : String

/-- One commit of `recent_changes.commits`: `{commit, message}`. -/
structure Commit where
  commit : String
  message : String

/-- One file of `recent_changes.files`: `{path, modified}`. -/
structure ChangedFile where
  path : String
  modified : String

/-- Payload of the `recent_changes` section (`_get_recent_changes`). -/
structure RecentChanges where
  commits : List Commit
  files : List ChangedFile

/-- One entry of `architecture.main_files`: `{path, type, size}`;
the dict key `type` is the Lean field `ftype`. -/
structure MainFile where
  path : String
  ftype : String
  size : Nat

/-- One entry of `architecture.services` (`_detect_services`): either a
docker-compose service `{name, type: "docker", ports}` or a detected
API app `{name, type: "api", file}`. -/
inductive Service where
  | docker (name : String) (ports : List String)
  | api (name file : String)

/-- The `name` field of a service. -/
def Service.name : Service → String
  | .docker n _ => n
  | .api n _ => n

/-- The `type` field of a service. -/
def Service.stype : Service → String
  | .docker _ _ => "docker"
  | .api _ _ => "api"

mutual
/-- A node of `architecture.structure` (`_build_tree`): directory nodes
carry `{name, type: "directory", children}`, file nodes `{name, type: "file"}`. -/
inductive TreeNode where
  | file (name : String)
  | dir (name : String) (children : TreeList)
/-- The `children` list of a directory node (a separate inductive so that
structural recursion over the tree is available). -/
inductive TreeList where
  | nil
  | cons (hd : TreeNode) (tl : TreeList)
end

/-- Payload of the `architecture` section (`_analyze_architecture`);
the dict key `structure` is the Lean field `struct`. -/
structure Architecture where
  struct : TreeNode
  main_files : List MainFile
  services : List Service
  databases : List String

/-- Payload of the `test_status` section. -/
structure TestStatus where
  passed : Nat
  failed : Nat
  skipped : Nat

/-- One entry of the `docker_status` section. -/
structure ContainerInfo where
  name : String
  status : String
  ports : String

/-- The full collected state (`analyze_project_state`): a dict with
these eight keys.  Each field is an `Option` because
`filter_by_importance` accepts any dict and tests key membership. -/
structure ProjectState where
  project_info : Option ProjInfo
  current_errors : Option (List ErrorEntry)
  architecture : Option Architecture
  recent_changes : Option RecentChanges
  tasks : Option (List Task)
  dependencies : Option (List (String × List String))
  test_status : Option TestStatus
  docker_status : Option (List ContainerInfo)

/-- The dict returned by `filter_by_importance`: it can only contain the
four priority sections plus the always-written key `project_info`.
The outer `Option` of each section field models dict-key membership;
for `project_info` the inner `Option` distinguishes a real info dict
from the `{}` default of `state.get('project_info', {})`. -/
structure CompressedState where
  current_errors : Option (List ErrorEntry)
  architecture : Option Architecture
  recent_changes : Option RecentChanges
  tasks : Option (List Task)
  project_info : Option (Option ProjInfo)

/-! ## JSON serialization of the four priority sections
(`json.dumps(state[state_key], ensure_ascii=False)`). -/

/-- Serialization of one error entry, keys in insertion order. -/
def dumpErrorEntry : ErrorEntry → String
  | .log t f ln m ts =>
      jsonObj [("type", jsonStr t), ("file", jsonStr f), ("line", toString ln),
               ("message", jsonStr m), ("timestamp", jsonStr ts)]
  | .docker c m ts =>
      jsonObj [("type", jsonStr ("Docker")), ("container", jsonStr c),
               ("message", jsonStr m), ("timestamp", jsonStr ts)]

/-- Serialization of the `current_errors` section. -/
def dumpErrors (l : List ErrorEntry) : String := jsonArr (l.map dumpErrorEntry)

/-- Serialization of one task. -/
def dumpTask (t : Task) : String :=
  jsonObj [("content", jsonStr t.content), ("status", jsonStr t.status),
           ("priority", jsonStr t.priority)]

/-- Serialization of the `tasks` section. -/
def dumpTasks (l : List Task) : String := jsonArr (l.map dumpTask)

/-- Serialization of one commit entry. -/
def dumpCommit (c : Commit) : String :=
  jsonObj [("commit", jsonStr c.commit), ("message", jsonStr c.message)]

/-- Serialization of one changed-file entry. -/
def dumpChangedFile (f : ChangedFile) : String :=
  jsonObj [("path", jsonStr f.path), ("modified", jsonStr f.modified)]

/-- Serialization of the `recent_changes` section. -/
def dumpRecentChanges (rc : RecentChanges) : String :=
  jsonObj [("commits", jsonArr (rc.commits.map dumpCommit)),
           ("files", jsonArr (rc.files.map dumpChangedFile))]

/-- Serialization of one `main_files` entry. -/
def dumpMainFile (f : MainFile) : String :=
  jsonObj [("path", jsonStr f.path), ("type", jsonStr f.ftype), ("size", toString f.size)]

/-- Serialization of one service entry. -/
def dumpService : Service → String
  | .docker n ps =>
      jsonObj [("name", jsonStr n), ("type", jsonStr ("docker")),
               ("ports", jsonArr (ps.map jsonStr))]
  | .api n f =>
      jsonObj [("name", jsonStr n), ("type", jsonStr ("api")), ("file", jsonStr f)]

mutual
/-- Serialization of one tree node. -/
def dumpTreeNode : TreeNode → String
  | .file n => jsonObj [("name", jsonStr n), ("type", jsonStr ("file"))]
  | .dir n cs =>
      jsonObj [("name", jsonStr n), ("type", jsonStr ("directory")),
               ("children", jsonArr (dumpTreeList cs))]
/-- Serializations of the nodes of a children list. -/
def dumpTreeList : TreeList → List String
  | .nil => []
  | .cons c rest => dumpTreeNode c :: dumpTreeList rest
end

/-- Serialization of the `architecture` section. -/
def dumpArchitecture (a : Architecture) : String :=
  jsonObj [("structure", dumpTreeNode a.struct),
           ("main_files", jsonArr (a.main_files.map dumpMainFile)),
           ("services", jsonArr (a.services.map dumpService)),
           ("databases", jsonArr (a.databases.map jsonStr))]

/-! ## The budget allocator (`filter_by_importance`) -/

/-- The four resolvable section keys. -/
inductive SKey where
  | errorsKey | tasksKey | changesKey | archKey
deriving DecidableEq

/-- The `priority_mapping` dict inside `filter_by_importance`. -/
def priorityMapping : String → Option SKey
  | "errors_and_issues" => some .errorsKey
  | "current_tasks" => some .tasksKey
  | "recent_changes" => some .changesKey
  | "architecture_summary" => some .archKey
  | _ => none

/-- `json.dumps(state[state_key], ensure_ascii=False)` for a resolved
section key; `none` when the key is absent from the state dict. -/
def ProjectState.sectionDump (st : ProjectState) : SKey → Option String
  | .errorsKey => st.current_errors.map dumpErrors
  | .tasksKey => st.tasks.map dumpTasks
  | .changesKey => st.recent_changes.map dumpRecentChanges
  | .archKey => st.architecture.map dumpArchitecture

/-- `filtered[state_key] = state[state_key]`. -/
def includeSection (c : CompressedState) (st : ProjectState) : SKey → CompressedState
  | .errorsKey => { c with current_errors := st.current_errors }
  | .tasksKey => { c with tasks := st.tasks }
  | .changesKey => { c with recent_changes := st.recent_changes }
  | .archKey => { c with architecture := st.architecture }

/-- One iteration of the priority loop of `filter_by_importance`.  The
second component of the accumulator is the running token counter in
quarter-tokens, so the float test `estimated_tokens + tokens <= max_tokens`
with `tokens = len(content) * 0.25` reads `est + len ≤ 4 * max_tokens`. -/
def filterStep (st : ProjectState) (maxTokens : Nat) (acc : CompressedState × Nat)
    (pk : String) : CompressedState × Nat :=
  match priorityMapping pk with
  | none => acc
  | some k =>
    match st.sectionDump k with
    | none => acc
    | some content =>
        if acc.2 + content.length ≤ 4 * maxTokens then
          (includeSection acc.1 st k, acc.2 + content.length)
        else acc

/-- The empty dict the allocator starts from. -/
def emptyCompressed : CompressedState := ⟨none, none, none, none, none⟩

/-- `filter_by_importance(state, max_tokens)`.  `priorityOrder` is the
configured `claude_code_optimization.priority_order` list; after the
loop, `filtered['project_info'] = state.get('project_info', {})` is
written unconditionally. -/
def filter_by_importance (priorityOrder : List String) (st : ProjectState)
    (maxTokens : Nat) : CompressedState :=
  let r := priorityOrder.foldl (filterStep st maxTokens) (emptyCompressed, 0)
  { r.1 with project_info := some st.project_info }

/-- The built-in default `priority_order`. -/
def defaultPriorityOrder : List String :=
  ["errors_and_issues", "current_tasks", "recent_changes", "architecture_summary"]

/-- Serialized length (in characters = quarter-tokens) of an optional
section under a given serializer. -/
def optCost {α : Type} (dump : α → String) : Option α → Nat
  | none => 0
  | some v => (dump v).length

/-- Total serialized size, in quarter-tokens, of the non-`project_info`
sections present in a compressed state. -/
def CompressedState.costQuarters (c : CompressedState) : Nat :=
  optCost dumpErrors c.current_errors + optCost dumpTasks c.tasks +
    optCost dumpRecentChanges c.recent_changes + optCost dumpArchitecture c.architecture

/-- The engine's token estimate (`len(json.dumps(section)) * 0.25`)
summed over the non-`project_info` sections present in a compressed
state, as an exact rational. -/
def CompressedState.estimatedTokens (c : CompressedState) : ℚ :=
  (optCost dumpErrors c.current_errors : ℚ) * 0.25 +
    (optCost dumpTasks c.tasks : ℚ) * 0.25 +
    (optCost dumpRecentChanges c.recent_changes : ℚ) * 0.25 +
    (optCost dumpArchitecture c.architecture : ℚ) * 0.25

/-! ## The renderer (`format_for_claude_code` and `_format_tree`)

The source builds a `lines` list and returns `'\n'.join(lines)`; the
model keeps the list (`formatForClaudeCodeLines`) and joins it at the
end.  `datetime.now().strftime('%Y-%m-%d %H:%M')` in the footer is the
parameter `now`. -/

mutual
/-- `_format_tree(tree, prefix)`.  On a file node the source's
`if tree['type'] == 'directory'` guard fails and the empty `lines` list
is returned.  Note: the source computes
`next_prefix = prefix + ("    " if is_last else "│   ")` but never uses
it — each directory child is recursed into with `child_prefix`
(the prefix already carrying the `├── `/`└── ` connector). -/
def formatTree : TreeNode → String → List String
  | .file _, _ => []
  | .dir name cs, pre => (pre ++ name ++ "/") :: formatChildren pre cs
/-- The `for i, child in enumerate(...)` loop of `_format_tree`:
the last child gets connector `└── `, every other child `├── `. -/
def formatChildren (pre : String) : TreeList → List String
  | .nil => []
  | .cons c .nil =>
      (match c with
       | .dir n cs2 => (pre ++ "└── " ++ n ++ "/") :: formatChildren (pre ++ "└── ") cs2
       | .file n => [pre ++ "└── " ++ n])
  | .cons c rest =>
      (match c with
       | .dir n cs2 => (pre ++ "├── " ++ n ++ "/") :: formatChildren (pre ++ "├── ") cs2
       | .file n => [pre ++ "├── " ++ n]) ++ formatChildren pre rest
end

/-- The fixed banner at the top of the document. -/
def headerLines : List String :=
  ["# 🧠 プロジェクト知識マップ（Claude Code用）",
   "",
   "> このファイルは、Claude Codeが効率的に開発するための「圧縮された知識ベース」です。",
   "> 全ファイルを読む代わりに、まずこのファイルを読んでください。",
   ""]

/-- `info.get('name', 'Unknown')` (`none` is the `{}` default dict). -/
def infoName : Option ProjInfo → String
  | none => "Unknown"
  | some i => i.name

/-- `info.get('type', 'Unknown')`. -/
def infoType : Option ProjInfo → String
  | none => "Unknown"
  | some i => i.ptype

/-- The `description` value of the info dict, when the key is present. -/
def infoDescription : Option ProjInfo → Option String
  | none => none
  | some i => i.description

/-- The current-location block: rendered whenever the `project_info`
key is present in the state dict. -/
def infoBlock : Option (Option ProjInfo) → List String
  | none => []
  | some oi =>
      ["## 📍 現在地", "", "### プロジェクト概要",
       ("- **名称**: ") ++ infoName oi,
       ("- **タイプ**: ") ++ infoType oi] ++
      (match infoDescription oi with
       | none => []
       | some d => [("- **説明**: ") ++ d]) ++
      [""]

/-- `f"  - {error['type']}: {error['message'][:100]}"`. -/
def errorLine (e : ErrorEntry) : String :=
  ("  - ") ++ e.etype ++ (": ") ++ pyTake e.message 100

/-- The critical-issues block: rendered only when `current_errors` is a
present, non-empty list; at most 5 entries are shown. -/
def errorsBlock : Option (List ErrorEntry) → List String
  | none => []
  | some es =>
      if es.isEmpty then []
      else
        ["### 🚨 現在の問題", "```yaml", "critical:"] ++
          (es.take 5).map errorLine ++ ["", "```", ""]

/-- `f"- {service['name']}: {service['type']}"`. -/
def serviceLine (sv : Service) : String := ("- ") ++ sv.name ++ (": ") ++ sv.stype

/-- The architecture block: the source checks only `'architecture' in state`,
so it is rendered whenever the key is present.  The inner
`'structure' in arch` test is always true for the dicts this model
covers, so the tree sub-block is unconditional; the services and
databases sub-blocks additionally require non-emptiness. -/
def archBlock : Option Architecture → List String
  | none => []
  | some a =>
      ["## 🏗️ アーキテクチャ", "",
       "### ディレクトリ構造（重要部分のみ）", "```"] ++
      formatTree a.struct "" ++ ["```", ""] ++
      (if a.services.isEmpty then []
       else ["### 主要サービス", "```yaml"] ++ a.services.map serviceLine ++ ["```", ""]) ++
      (if a.databases.isEmpty then []
       else [("### データベース: ") ++ String.intercalate (", ") a.databases, ""])

/-- `f"- {task['content']}"`. -/
def taskLine (t : Task) : String := ("- ") ++ t.content

/-- The current-tasks block: rendered only when `tasks` is a present,
non-empty list; split into High/Medium groups capped at 3 each. -/
def tasksBlock : Option (List Task) → List String
  | none => []
  | some ts =>
      if ts.isEmpty then []
      else
        let high := ts.filter (fun t => t.priority == "high")
        let medium := ts.filter (fun t => t.priority == "medium")
        ["## 🎯 現在のタスク", ""] ++
        (if high.isEmpty then []
         else ["### 🔴 High Priority"] ++ (high.take 3).map taskLine ++ [""]) ++
        (if medium.isEmpty then []
         else ["### 🟡 Medium Priority"] ++ (medium.take 3).map taskLine ++ [""])

/-- `f"- {commit['commit']}: {commit['message']}"`. -/
def commitLine (c : Commit) : String := ("- ") ++ c.commit ++ (": ") ++ c.message

/-- `f"- {file['path']} ({file['modified'][:10]})"`. -/
def fileLine (f : ChangedFile) : String :=
  ("- ") ++ f.path ++ (" (") ++ pyTake f.modified 10 ++ (")")

/-- The recent-changes block: the source checks only
`'recent_changes' in state`, so the heading is rendered whenever the
key is present; the commits and files sub-blocks require non-emptiness. -/
def changesBlock : Option RecentChanges → List String
  | none => []
  | some rc =>
      ["## 📝 最近の変更", ""] ++
      (if rc.commits.isEmpty then []
       else ["### 最新コミット"] ++ (rc.commits.take 3).map commitLine ++ [""]) ++
      (if rc.files.isEmpty then []
       else ["### 最近更新されたファイル"] ++ (rc.files.take 5).map fileLine ++ [""])

/-- The fixed footer; `now` is the formatted `datetime.now()`. -/
def footerLines (now : String) : List String :=
  ["---", ("最終更新: ") ++ now, "次回更新: `ukf knowledge compress` で実行"]

/-- The `lines` list built by `format_for_claude_code`. -/
def formatForClaudeCodeLines (s : CompressedState) (now : String) : List String :=
  headerLines ++ infoBlock s.project_info ++ errorsBlock s.current_errors ++
    archBlock s.architecture ++ tasksBlock s.tasks ++ changesBlock s.recent_changes ++
    footerLines now

/-- `format_for_claude_code(state)` = `'\n'.join(lines)`. -/
def format_for_claude_code (s : CompressedState) (now : String) : String :=
  String.intercalate ("\n") (formatForClaudeCodeLines s now)

/-- `format_as_mindmap(state)`: an unimplemented stub. -/
def format_as_mindmap (_ : CompressedState) : String :=
  "# Mind Map Format\n\nNot implemented yet."

/-- `format_as_markdown(state)`: the source delegates to
`format_for_claude_code`. -/
def format_as_markdown (s : CompressedState) (now : String) : String :=
  format_for_claude_code s now

/-! ## Error post-processing (`_find_current_errors`, lines 199–210)

After collecting raw entries the source runs
`sorted(errors, key=lambda x: x.get('timestamp', ''), reverse=True)`
(Python's stable sort, here by timestamp string descending), then
deduplicates by `(error['type'], error['message'][:50])` keeping the
first hit, stopping once 10 entries are kept. -/

/-- The dedup key `(error['type'], error['message'][:50])`. -/
def errKey (e : ErrorEntry) : String × String := (e.etype, pyTake e.message 50)

/-- "`a` may come before `b`" in the descending-timestamp order. -/
def tsDesc (a b : ErrorEntry) : Prop := b.timestamp ≤ a.timestamp

instance : DecidableRel tsDesc :=
  fun a b => (inferInstance : Decidable (b.timestamp ≤ a.timestamp))

instance : IsTotal ErrorEntry tsDesc := ⟨fun a b => le_total b.timestamp a.timestamp⟩

instance : IsTrans ErrorEntry tsDesc := ⟨fun _ _ _ hab hbc => le_trans hbc hab⟩

/-- `sorted(errors, key=..., reverse=True)`: a stable sort by timestamp
descending.  Insertion sort with the total preorder `tsDesc` is stable,
so it computes the same list as Python's stable sort. -/
def sortErrorsDesc (l : List ErrorEntry) : List ErrorEntry := List.insertionSort tsDesc l

/-- The dedup-and-cap loop.  `seen` is the `seen` set (as a list),
`cap` the number of slots left before `len(unique_errors) >= 10`
breaks the loop; the initial call uses `cap = 10`. -/
def dedupAux : List ErrorEntry → List (String × String) → Nat → List ErrorEntry
  | [], _, _ => []
  | e :: rest, seen, cap =>
      if errKey e ∈ seen then dedupAux rest seen cap
      else if cap ≤ 1 then [e]
      else e :: dedupAux rest (errKey e :: seen) (cap - 1)

/-- The post-processing tail of `_find_current_errors`: sort newest
first, deduplicate by `errKey`, keep at most 10. -/
def findCurrentErrorsPost (errors : List ErrorEntry) : List ErrorEntry :=
  dedupAux (sortErrorsDesc errors) [] 10

/-! ## Filesystem model and collectors

Collectors touch the filesystem; reads can fail (unreadable file,
undecodable bytes).  A file system maps paths to either a content
string or a read failure; `Except` models Python exception flow. -/

/-- A project root: the files that exist, each with the outcome a read
of it would have. -/
structure FS where
  files : List (String × Except Unit String)

/-- Look a path up in the file table. -/
def fsLookup (fs : FS) (n : String) : Option (Except Unit String) :=
  (fs.files.find? (fun p => p.1 == n)).map Prod.snd

/-- `Path.exists()`. -/
def fsExists (fs : FS) (n : String) : Bool := (fsLookup fs n).isSome

/-- `open(...); f.read()` — raises (returns `.error`) when the file is
missing or unreadable. -/
def readF (fs : FS) (n : String) : Except Unit String :=
  match fsLookup fs n with
  | some r => r
  | none => .error ()

/-- `_detect_project_type`: decide the project type from marker files. -/
def detectProjectType (fs : FS) : String :=
  if fsExists fs ("package.json") then "node/javascript"
  else if fsExists fs ("requirements.txt") || fsExists fs ("pyproject.toml") then "python"
  else if fsExists fs ("go.mod") then "go"
  else if fsExists fs ("Cargo.toml") then "rust"
  else if fsExists fs ("pom.xml") then "java/maven"
  else "unknown"

/-- Split a character list at every newline (Python `str.split('\n')`:
`n` newlines yield `n+1` pieces). -/
def splitOnNl : List Char → List (List Char)
  | [] => [[]]
  | c :: cs =>
      match splitOnNl cs with
      | [] => [[]]
      | l :: ls => if c == '\n' then [] :: l :: ls else (c :: l) :: ls

/-- Python `content.split('\n')`. -/
def splitNl (s : String) : List String := (splitOnNl s.data).map String.mk

/-- Python `f.readlines()`, except that the kept lines are returned
without their trailing `'\n'` (the scanners below only strip lines or
search them for newline-free keywords, so the terminator is irrelevant;
the number and order of lines is exact). -/
def pyReadLines (s : String) : List String :=
  let ps := splitOnNl s.data
  (if ps.getLast? = some [] then ps.dropLast else ps).map String.mk

/-- The line loop of `_extract_description`: a line mentioning
`概要`/`Overview` switches collection on, a later `#` heading stops it,
non-blank lines are collected stripped. -/
def extractDescLoop : List String → Bool → List String
  | [], _ => []
  | line :: rest, inDesc =>
      if strContains line ("概要") || strContains line ("Overview") then
        extractDescLoop rest true
      else if inDesc && startsWithL ['#'] line.data then
        []
      else if inDesc && (pyStrip line != "") then
        pyStrip line :: extractDescLoop rest inDesc
      else
        extractDescLoop rest inDesc

/-- `_extract_description(content)`: join the first three collected
lines with spaces. -/
def extractDescription (content : String) : String :=
  String.intercalate (" ") ((extractDescLoop (splitNl content) false).take 3)

/-- The README names probed by `_get_project_info`, in order. -/
def readmeNames : List String := ["CLAUDE.md", "README.md", "readme.md"]

/-- `_get_project_info(project_path)`.  `pname`/`ppath` are
`project_path.name` / `str(project_path)`.  The body opens the first
existing README **outside any try/except**, so a read failure
propagates to the caller as `.error`. -/
def getProjectInfo (fs : FS) (pname ppath : String) : Except Unit ProjInfo :=
  let base : ProjInfo := ⟨pname, ppath, detectProjectType fs, none⟩
  match readmeNames.find? (fun n => fsExists fs n) with
  | none => .ok base
  | some n =>
      match readF fs n with
      | .error e => .error e
      | .ok content0 =>
          let content := pyTake content0 1000
          if strContains content ("概要") || strContains content ("Overview") then
            .ok { base with description := some (extractDescription content) }
          else .ok base

/-- The keyword table of `_extract_errors_from_file`. -/
def errorKeywords : List String := ["ERROR", "FAILED", "Exception", "Error:", "fail"]

/-- The scan loop of `_extract_errors_from_file` over the last-100-lines
window: the first matching keyword yields one entry per line, with the
1-based index within the window, the stripped line truncated to 200
characters, and the file's mtime (`mtimeIso`) as timestamp. -/
def scanErrorLines (fname mtimeIso : String) (ls : List String) : List ErrorEntry :=
  (ls.enum).filterMap (fun p =>
    match errorKeywords.find? (fun k => strContains p.2 k) with
    | none => none
    | some k => some (.log k fname (p.1 + 1) (pyTake (pyStrip p.2) 200) mtimeIso))

/-- The last `n` elements of a list (`lines[-100:]` keeps the whole
list when it is shorter than 100). -/
def lastN {α : Type} (n : Nat) (l : List α) : List α := l.drop (l.length - n)

/-- `_extract_errors_from_file(file_path)`.  The whole body sits inside
`try: ... except Exception: pass`, so a failing read yields the entries
collected so far — the empty list — instead of an exception. -/
def extractErrorsFromFileE (fs : FS) (fname mtimeIso : String) : Except Unit (List ErrorEntry) :=
  match readF fs fname with
  | .error _ => .ok []
  | .ok content => .ok (scanErrorLines fname mtimeIso (lastN 100 (pyReadLines content)))

/-- Shape of every line the tree printer can emit when started from the
prefixes that actually occur: directory lines end in `/`, file lines
start with a connector character. -/
def treeLineOk (l : String) : Prop :=
  l.data.getLast? = some '/' ∨ l.data.head? = some '├' ∨ l.data.head? = some '└'

instance (l : String) : Decidable (treeLineOk l) := by
  unfold treeLineOk
  infer_instance

/-- The prefixes `_format_tree` is ever called with: the empty initial
prefix, or a prefix that starts with a connector character. -/
def preOk (p : String) : Prop :=
  p.data.head? = none ∨ p.data.head? = some '├' ∨ p.data.head? = some '└'

/-! ## Helper lemmas -/

/-- The head survives appending on the right. -/
theorem head_append_of_head (x y : String) (c : Char) (h : x.data.head? = some c) :
    (x ++ y).data.head? = some c := by
  rw [String.data_append]
  cases hx : x.data with
  | nil => simp [hx] at h
  | cons d ds => rw [hx] at h; simp at h; simp [h]

/-- The head of an append with empty left part. -/
theorem head_append_of_nil (x y : String) (h : x.data = []) :
    (x ++ y).data.head? = y.data.head? := by
  rw [String.data_append, h, List.nil_append]

/-- The last element survives appending on the left. -/
theorem getLast_append_of_getLast (x y : String) (c : Char) (h : y.data.getLast? = some c) :
    (x ++ y).data.getLast? = some c := by
  rw [String.data_append, List.getLast?_append_of_ne_nil]
  · exact h
  · intro hh; simp [hh] at h

/-- The filter loop never touches `current_errors` except through the
`errors_and_issues` priority entry. -/
theorem filterStep_currentErrors (st : ProjectState) (m : Nat) (acc : CompressedState × Nat)
    (pk : String) (h : priorityMapping pk ≠ some SKey.errorsKey) :
    ((filterStep st m acc pk).1).current_errors = acc.1.current_errors := by
  cases hpm : priorityMapping pk with
  | none => simp [filterStep, hpm]
  | some k =>
      cases hd : st.sectionDump k with
      | none => simp [filterStep, hpm, hd]
      | some content =>
          by_cases hc : acc.2 + content.length ≤ 4 * m
          · cases k with
            | errorsKey => exact absurd hpm h
            | tasksKey => simp [filterStep, hpm, hd, hc, includeSection]
            | changesKey => simp [filterStep, hpm, hd, hc, includeSection]
            | archKey => simp [filterStep, hpm, hd, hc, includeSection]
          · simp [filterStep, hpm, hd, hc]

/-- A priority entry whose resolved section is absent from the state
leaves the accumulator unchanged. -/
theorem filterStep_absent (st : ProjectState) (m : Nat) (acc : CompressedState × Nat)
    (pk : String) (k : SKey) (hk : priorityMapping pk = some k)
    (hd : st.sectionDump k = none) : filterStep st m acc pk = acc := by
  simp [filterStep, hk, hd]

/-- Including a section raises the total serialized size by at most the
section's own serialized length. -/
theorem costQuarters_includeSection (c : CompressedState) (st : ProjectState) (k : SKey)
    (content : String) (hd : st.sectionDump k = some content) :
    (includeSection c st k).costQuarters ≤ c.costQuarters + content.length := by
  cases k with
  | errorsKey =>
      simp only [ProjectState.sectionDump, Option.map_eq_some'] at hd
      obtain ⟨es, h1, h2⟩ := hd
      simp only [includeSection, CompressedState.costQuarters, h1, optCost, ← h2]
      omega
  | tasksKey =>
      simp only [ProjectState.sectionDump, Option.map_eq_some'] at hd
      obtain ⟨ts, h1, h2⟩ := hd
      simp only [includeSection, CompressedState.costQuarters, h1, optCost, ← h2]
      omega
  | changesKey =>
      simp only [ProjectState.sectionDump, Option.map_eq_some'] at hd
      obtain ⟨rc, h1, h2⟩ := hd
      simp only [includeSection, CompressedState.costQuarters, h1, optCost, ← h2]
      omega
  | archKey =>
      simp only [ProjectState.sectionDump, Option.map_eq_some'] at hd
      obtain ⟨a, h1, h2⟩ := hd
      simp only [includeSection, CompressedState.costQuarters, h1, optCost, ← h2]
      omega

/-- One step of the priority loop keeps the invariant: the included
sections' sizes stay below the counter, the counter below the budget. -/
theorem filterStep_preserves (st : ProjectState) (m : Nat) (acc : CompressedState × Nat)
    (pk : String) (h1 : acc.1.costQuarters ≤ acc.2) (h2 : acc.2 ≤ 4 * m) :
    ((filterStep st m acc pk).1.costQuarters ≤ (filterStep st m acc pk).2 ∧
      (filterStep st m acc pk).2 ≤ 4 * m) := by
  cases hpm : priorityMapping pk with
  | none => simpa [filterStep, hpm] using ⟨h1, h2⟩
  | some k =>
      cases hd : st.sectionDump k with
      | none => simpa [filterStep, hpm, hd] using ⟨h1, h2⟩
      | some content =>
          by_cases hc : acc.2 + content.length ≤ 4 * m
          · have hinc := costQuarters_includeSection acc.1 st k content hd
            simp only [filterStep, hpm, hd]
            rw [if_pos hc]
            show ((includeSection acc.1 st k).costQuarters ≤ acc.2 + content.length ∧
              acc.2 + content.length ≤ 4 * m)
            exact ⟨by omega, hc⟩
          · simpa [filterStep, hpm, hd, hc] using ⟨h1, h2⟩

/-- The loop invariant of `filter_by_importance`, by induction over the
priority order. -/
theorem filter_foldl_invariant (st : ProjectState) (m : Nat) (po : List String)
    (acc : CompressedState × Nat) (h1 : acc.1.costQuarters ≤ acc.2) (h2 : acc.2 ≤ 4 * m) :
    ((po.foldl (filterStep st m) acc).1.costQuarters ≤ (po.foldl (filterStep st m) acc).2 ∧
      (po.foldl (filterStep st m) acc).2 ≤ 4 * m) := by
  induction po generalizing acc with
  | nil => exact ⟨h1, h2⟩
  | cons pk po ih =>
      rw [List.foldl_cons]
      have hp := filterStep_preserves st m acc pk h1 h2
      exact ih (filterStep st m acc pk) hp.1 hp.2

/-- Appending a connector to an allowed prefix yields a string whose
head is a connector character. -/
theorem connHead (pre conn : String) (hp : preOk pre)
    (hc : conn.data.head? = some '├' ∨ conn.data.head? = some '└') :
    ((pre ++ conn).data.head? = some '├' ∨ (pre ++ conn).data.head? = some '└') := by
  rcases hp with h | h | h
  · have hnil : pre.data = [] := by
      cases hd : pre.data with
      | nil => rfl
      | cons a as => rw [hd] at h; simp at h
    rcases hc with hc | hc
    · exact Or.inl (by rw [head_append_of_nil _ _ hnil]; exact hc)
    · exact Or.inr (by rw [head_append_of_nil _ _ hnil]; exact hc)
  · exact Or.inl (head_append_of_head _ _ _ h)
  · exact Or.inr (head_append_of_head _ _ _ h)

/-- A connector-extended prefix is again an allowed prefix. -/
theorem preOk_extend (pre conn : String) (hp : preOk pre)
    (hc : conn.data.head? = some '├' ∨ conn.data.head? = some '└') :
    preOk (pre ++ conn) := by
  rcases connHead pre conn hp hc with h | h
  · exact Or.inr (Or.inl h)
  · exact Or.inr (Or.inr h)

/-- A file line `pre ++ conn ++ n` has a connector head. -/
theorem fileLine_ok (pre conn n : String) (hp : preOk pre)
    (hc : conn.data.head? = some '├' ∨ conn.data.head? = some '└') :
    treeLineOk ((pre ++ conn) ++ n) := by
  rcases connHead pre conn hp hc with h | h
  · exact Or.inr (Or.inl (head_append_of_head _ _ _ h))
  · exact Or.inr (Or.inr (head_append_of_head _ _ _ h))

mutual

/-- Every line the tree printer emits, starting from an allowed prefix,
either ends in `/` (directory line) or starts with a connector (file
line). -/
theorem formatTree_shape : ∀ (t : TreeNode) (pre : String), preOk pre →
    ∀ l ∈ formatTree t pre, treeLineOk l
  | .file _, _, _ => by simp [formatTree]
  | .dir name cs, pre, hp => by
      intro l hl
      simp only [formatTree, List.mem_cons] at hl
      rcases hl with rfl | hl
      · exact Or.inl (getLast_append_of_getLast _ _ _ rfl)
      · exact formatChildren_shape cs pre hp l hl

/-- Same statement for the children loop. -/
theorem formatChildren_shape : ∀ (cs : TreeList) (pre : String), preOk pre →
    ∀ l ∈ formatChildren pre cs, treeLineOk l
  | .nil, _, _ => by simp [formatChildren]
  | .cons c .nil, pre, hp => by
      intro l hl
      cases c with
      | dir n cs2 =>
          simp only [formatChildren, List.mem_cons] at hl
          rcases hl with rfl | hl
          · exact Or.inl (getLast_append_of_getLast _ _ _ rfl)
          · exact formatChildren_shape cs2 (pre ++ "└── ")
              (preOk_extend pre _ hp (Or.inr rfl)) l hl
      | file n =>
          simp only [formatChildren, List.mem_singleton] at hl
          rw [hl]
          exact fileLine_ok pre _ n hp (Or.inr rfl)
  | .cons c (.cons c2 rest), pre, hp => by
      intro l hl
      cases c with
      | dir n cs2 =>
          simp only [formatChildren, List.mem_append, List.mem_cons] at hl
          rcases hl with (rfl | hl) | hl
          · exact Or.inl (getLast_append_of_getLast _ _ _ rfl)
          · exact formatChildren_shape cs2 (pre ++ "├── ")
              (preOk_extend pre _ hp (Or.inl rfl)) l hl
          · exact formatChildren_shape (.cons c2 rest) pre hp l hl
      | file n =>
          simp only [formatChildren, List.mem_append, List.mem_singleton] at hl
          rcases hl with rfl | hl
          · exact fileLine_ok pre _ n hp (Or.inl rfl)
          · exact formatChildren_shape (.cons c2 rest) pre hp l hl

end

/-- A string is a prefix (at the character level) of itself followed by
anything. -/
theorem prefix_self_append (p s : String) : List.IsPrefix p.data (p ++ s).data := by
  rw [String.data_append]
  exact List.prefix_append _ _

/-- Prefixes at the character level survive appending on the right. -/
theorem prefix_of_appended (p q s : String) (h : List.IsPrefix p.data q.data) :
    List.IsPrefix p.data (q ++ s).data := by
  rw [String.data_append]
  exact h.trans (List.prefix_append _ _)

/-- Every line of the current-location block is one of its three fixed
lines or starts with `- `. -/
theorem infoBlock_shape (oi : Option (Option ProjInfo)) :
    ∀ x ∈ infoBlock oi,
      (x ∈ (["## 📍 現在地", "", "### プロジェクト概要"] : List String) ∨
        List.IsPrefix ("- ").data x.data) := by
  intro x hx
  cases oi with
  | none => simp [infoBlock] at hx
  | some oi =>
      rcases List.mem_append.mp hx with hx | hlast
      · rcases List.mem_append.mp hx with hfix | hdesc
        · simp at hfix
          rcases hfix with rfl | rfl | rfl | rfl | rfl
          · decide
          · decide
          · decide
          · exact Or.inr (prefix_self_append _ _)
          · exact Or.inr (prefix_self_append _ _)
        · cases hd : infoDescription oi with
          | none => simp [hd] at hdesc
          | some d =>
              rw [hd] at hdesc
              simp at hdesc
              rw [hdesc]
              exact Or.inr (prefix_self_append _ _)
      · simp at hlast
        rw [hlast]
        decide

/-- Every line of the critical-issues block is one of its fixed lines or
starts with `  - `. -/
theorem errorsBlock_shape (oe : Option (List ErrorEntry)) :
    ∀ x ∈ errorsBlock oe,
      (x ∈ (["### 🚨 現在の問題", "```yaml", "critical:", "", "```"] : List String) ∨
        List.IsPrefix ("  - ").data x.data) := by
  intro x hx
  cases oe with
  | none => simp [errorsBlock] at hx
  | some es =>
      by_cases he : es.isEmpty
      · simp [errorsBlock, he] at hx
      · rw [errorsBlock, if_neg he] at hx
        rcases List.mem_append.mp hx with hx | hlast
        · rcases List.mem_append.mp hx with hfix | hmap
          · simp at hfix
            rcases hfix with rfl | rfl | rfl
            · decide
            · decide
            · decide
          · have hmem : x ∈ List.map errorLine es := List.mem_of_mem_take (by simpa using hmap)
            rcases List.mem_map.mp hmem with ⟨e, _, rfl⟩
            exact Or.inr (prefix_of_appended _ _ _ (prefix_of_appended _ _ _
              (prefix_self_append _ _)))
        · simp at hlast
          rcases hlast with rfl | rfl | rfl
          · decide
          · decide
          · decide

/-- Every line of the architecture block is one of its fixed lines, a
tree-printer line, a service line starting with `- `, or a database
line starting with `### データベース: `. -/
theorem archBlock_shape (oa : Option Architecture) :
    ∀ x ∈ archBlock oa,
      (x ∈ (["## 🏗️ アーキテクチャ", "", "### ディレクトリ構造（重要部分のみ）", "```",
              "### 主要サービス", "```yaml"] : List String) ∨
        treeLineOk x ∨
        List.IsPrefix ("- ").data x.data ∨
        List.IsPrefix ("### データベース: ").data x.data) := by
  intro x hx
  cases oa with
  | none => simp [archBlock] at hx
  | some a =>
      rw [archBlock] at hx
      rcases List.mem_append.mp hx with hx | hdb
      · rcases List.mem_append.mp hx with hx | hsv
        · rcases List.mem_append.mp hx with hx | hC
          · rcases List.mem_append.mp hx with hfix | htree
            · simp at hfix
              rcases hfix with rfl | rfl | rfl | rfl
              · decide
              · decide
              · decide
              · decide
            · exact Or.inr (Or.inl (formatTree_shape a.struct "" (Or.inl rfl) x htree))
          · simp at hC
            rcases hC with rfl | rfl
            · decide
            · decide
        · by_cases hs : a.services.isEmpty
          · simp [hs] at hsv
          · rw [if_neg hs] at hsv
            rcases List.mem_append.mp hsv with hfix | hsv
            · rcases List.mem_append.mp hfix with hfix | hmap
              · simp at hfix
                rcases hfix with rfl | rfl
                · decide
                · decide
              · rcases List.mem_map.mp hmap with ⟨sv, _, rfl⟩
                exact Or.inr (Or.inr (Or.inl (prefix_of_appended _ _ _
                  (prefix_of_appended _ _ _ (prefix_self_append _ _)))))
            · simp at hsv
              rcases hsv with rfl | rfl
              · decide
              · decide
      · by_cases hb : a.databases.isEmpty
        · simp [hb] at hdb
        · rw [if_neg hb] at hdb
          simp at hdb
          rcases hdb with rfl | rfl
          · exact Or.inr (Or.inr (Or.inr (prefix_self_append _ _)))
          · decide

/-- Every line of the current-tasks block is one of its fixed lines or
starts with `- `. -/
theorem tasksBlock_shape (ot : Option (List Task)) :
    ∀ x ∈ tasksBlock ot,
      (x ∈ (["## 🎯 現在のタスク", "", "### 🔴 High Priority", "### 🟡 Medium Priority"] :
          List String) ∨
        List.IsPrefix ("- ").data x.data) := by
  intro x hx
  cases ot with
  | none => simp [tasksBlock] at hx
  | some ts =>
      by_cases he : ts.isEmpty
      · simp [tasksBlock, he] at hx
      · rw [tasksBlock, if_neg he] at hx
        rcases List.mem_append.mp hx with hx | hmed
        · rcases List.mem_append.mp hx with hfix | hhigh
          · simp at hfix
            rcases hfix with rfl | rfl
            · decide
            · decide
          · by_cases hh : (ts.filter (fun t => t.priority == "high")).isEmpty
            · simp [hh] at hhigh
            · rw [if_neg hh] at hhigh
              rcases List.mem_append.mp hhigh with hfix | hlast
              · rcases List.mem_append.mp hfix with hfix | hmap
                · simp at hfix
                  rw [hfix]
                  decide
                · have hmem : x ∈ List.map taskLine (ts.filter (fun t => t.priority == "high")) :=
                    List.mem_of_mem_take (by simpa using hmap)
                  rcases List.mem_map.mp hmem with ⟨t, _, rfl⟩
                  exact Or.inr (prefix_self_append _ _)
              · simp at hlast
                rw [hlast]
                decide
        · by_cases hm : (ts.filter (fun t => t.priority == "medium")).isEmpty
          · simp [hm] at hmed
          · rw [if_neg hm] at hmed
            rcases List.mem_append.mp hmed with hfix | hlast
            · rcases List.mem_append.mp hfix with hfix | hmap
              · simp at hfix
                rw [hfix]
                decide
              · have hmem : x ∈ List.map taskLine (ts.filter (fun t => t.priority == "medium")) :=
                  List.mem_of_mem_take (by simpa using hmap)
                rcases List.mem_map.mp hmem with ⟨t, _, rfl⟩
                exact Or.inr (prefix_self_append _ _)
            · simp at hlast
              rw [hlast]
              decide

/-- Every line of the recent-changes block is one of its fixed lines or
starts with `- `. -/
theorem changesBlock_shape (orc : Option RecentChanges) :
    ∀ x ∈ changesBlock orc,
      (x ∈ (["## 📝 最近の変更", "", "### 最新コミット", "### 最近更新されたファイル"] :
          List String) ∨
        List.IsPrefix ("- ").data x.data) := by
  intro x hx
  cases orc with
  | none => simp [changesBlock] at hx
  | some rc =>
      rw [changesBlock] at hx
      rcases List.mem_append.mp hx with hx | hfiles
      · rcases List.mem_append.mp hx with hfix | hcom
        · simp at hfix
          rcases hfix with rfl | rfl
          · decide
          · decide
        · by_cases hc : rc.commits.isEmpty
          · simp [hc] at hcom
          · rw [if_neg hc] at hcom
            rcases List.mem_append.mp hcom with hfix | hlast
            · rcases List.mem_append.mp hfix with hfix | hmap
              · simp at hfix
                rw [hfix]
                decide
              · have hmem : x ∈ List.map commitLine rc.commits :=
                  List.mem_of_mem_take (by simpa using hmap)
                rcases List.mem_map.mp hmem with ⟨c, _, rfl⟩
                exact Or.inr (prefix_of_appended _ _ _ (prefix_of_appended _ _ _
                  (prefix_self_append _ _)))
            · simp at hlast
              rw [hlast]
              decide
      · by_cases hf : rc.files.isEmpty
        · simp [hf] at hfiles
        · rw [if_neg hf] at hfiles
          rcases List.mem_append.mp hfiles with hfix | hlast
          · rcases List.mem_append.mp hfix with hfix | hmap
            · simp at hfix
              rw [hfix]
              decide
            · have hmem : x ∈ List.map fileLine rc.files :=
                List.mem_of_mem_take (by simpa using hmap)
              rcases List.mem_map.mp hmem with ⟨f, _, rfl⟩
              exact Or.inr (prefix_of_appended _ _ _ (prefix_of_appended _ _ _
                (prefix_of_appended _ _ _ (prefix_self_append _ _))))
          · simp at hlast
            rw [hlast]
            decide

/-- Every line of the footer is one of its two fixed lines or starts
with `最終更新: `. -/
theorem footerLines_shape (now : String) :
    ∀ x ∈ footerLines now,
      (x ∈ (["---", "次回更新: `ukf knowledge compress` で実行"] : List String) ∨
        List.IsPrefix ("最終更新: ").data x.data) := by
  intro x hx
  simp [footerLines] at hx
  rcases hx with rfl | rfl | rfl
  · decide
  · exact Or.inr (prefix_self_append _ _)
  · decide

/-- A rendered line comes from one of the seven blocks. -/
theorem mem_formatLines_cases (s : CompressedState) (now : String) (x : String)
    (hx : x ∈ formatForClaudeCodeLines s now) :
    (x ∈ headerLines ∨ x ∈ infoBlock s.project_info ∨ x ∈ errorsBlock s.current_errors ∨
      x ∈ archBlock s.architecture ∨ x ∈ tasksBlock s.tasks ∨
      x ∈ changesBlock s.recent_changes ∨ x ∈ footerLines now) := by
  rw [formatForClaudeCodeLines] at hx
  simp only [List.mem_append] at hx
  tauto

/-- A critical-issues-block line is rendered. -/
theorem mem_formatLines_of_errors (s : CompressedState) (now x : String)
    (h : x ∈ errorsBlock s.current_errors) : x ∈ formatForClaudeCodeLines s now := by
  rw [formatForClaudeCodeLines]
  simp only [List.mem_append]
  exact Or.inl (Or.inl (Or.inl (Or.inl (Or.inr h))))

/-- An architecture-block line is rendered. -/
theorem mem_formatLines_of_arch (s : CompressedState) (now x : String)
    (h : x ∈ archBlock s.architecture) : x ∈ formatForClaudeCodeLines s now := by
  rw [formatForClaudeCodeLines]
  simp only [List.mem_append]
  exact Or.inl (Or.inl (Or.inl (Or.inr h)))

/-- A tasks-block line is rendered. -/
theorem mem_formatLines_of_tasks (s : CompressedState) (now x : String)
    (h : x ∈ tasksBlock s.tasks) : x ∈ formatForClaudeCodeLines s now := by
  rw [formatForClaudeCodeLines]
  simp only [List.mem_append]
  exact Or.inl (Or.inl (Or.inr h))

/-- A recent-changes-block line is rendered. -/
theorem mem_formatLines_of_changes (s : CompressedState) (now x : String)
    (h : x ∈ changesBlock s.recent_changes) : x ∈ formatForClaudeCodeLines s now := by
  rw [formatForClaudeCodeLines]
  simp only [List.mem_append]
  exact Or.inl (Or.inr h)

/-! ## Claims -/

/-- C1: for every priority order, every ProjectState and every
`max_tokens ≥ 0`, the sum over the non-`project_info` sections of the
returned CompressedState of `len(json.dumps(section)) * 0.25` never
exceeds `max_tokens`; `project_info` is not counted. -/
theorem filter_budget_never_exceeded (po : List String) (st : ProjectState) (m : Nat) :
    (filter_by_importance po st m).estimatedTokens ≤ (m : ℚ) := by
  have h := filter_foldl_invariant st m po (emptyCompressed, 0)
    (by simp [CompressedState.costQuarters, emptyCompressed, optCost]) (Nat.zero_le _)
  have hq : (filter_by_importance po st m).costQuarters ≤ 4 * m := le_trans h.1 h.2
  have heq : (filter_by_importance po st m).estimatedTokens =
      ((filter_by_importance po st m).costQuarters : ℚ) * 0.25 := by
    unfold CompressedState.estimatedTokens CompressedState.costQuarters
    push_cast
    ring
  rw [heq]
  have h4 : ((filter_by_importance po st m).costQuarters : ℚ) ≤ ((4 * m : Nat) : ℚ) :=
    Nat.cast_le.mpr hq
  push_cast at h4
  linarith

/-- C7: the tree printer on
`{name: root, dir, children: [{name: a, dir, children: []}, {name: b.txt, file}]}`
yields exactly `root/`, `├── a/`, `└── b.txt` in that order. -/
theorem formatTree_flat_scenario :
    formatTree (.dir ("root") (.cons (.dir ("a") .nil) (.cons (.file ("b.txt")) .nil))) "" =
      ["root/", "├── a/", "└── b.txt"] := rfl

/-- C8: evaluation of the tree printer on a nested tree
(`root` containing a non-last directory `a` with one file `b.txt`, then
a file `c.txt`).  Because the computed `next_prefix` is never used and
the recursion passes `child_prefix` instead, the descendant line comes
out as `├── └── b.txt` — not `│   └── b.txt` as the standard
tree-drawing rule stated by the claim would give. -/
theorem formatTree_nested_eval :
    formatTree (.dir ("root") (.cons (.dir ("a") (.cons (.file ("b.txt")) .nil))
        (.cons (.file ("c.txt")) .nil))) "" =
      ["root/", "├── a/", "├── └── b.txt", "└── c.txt"] := rfl

/-- C10: `format_as_markdown` returns exactly what
`format_for_claude_code` returns on the same state — the source
delegates to it. -/
theorem format_as_markdown_eq_claude_code (s : CompressedState) (now : String) :
    format_as_markdown s now = format_for_claude_code s now := rfl

/-- C4: for every priority order, state and budget, the filtered dict
maps the key `project_info` to `state.get('project_info', {})`
(so the key is always present), and the rendered output contains the
project-identity heading. -/
theorem filter_always_contains_project_info (po : List String) (st : ProjectState) (m : Nat)
    (now : String) :
    ((filter_by_importance po st m).project_info = some st.project_info ∧
      ("## 📍 現在地") ∈ formatForClaudeCodeLines (filter_by_importance po st m) now) := by
  refine ⟨rfl, ?_⟩
  have h : (filter_by_importance po st m).project_info = some st.project_info := rfl
  unfold formatForClaudeCodeLines
  rw [h]
  have hmem : ("## 📍 現在地") ∈ infoBlock (some st.project_info) := by
    simp [infoBlock]
  simp only [List.mem_append]
  exact Or.inl (Or.inl (Or.inl (Or.inl (Or.inl (Or.inr hmem)))))

/-- C5 (counterexample): an *empty but present* section is not skipped.
With the default priority order, a state whose `tasks` key holds the
empty list and a budget of 100 tokens, the filter serializes the empty
list (`"[]"`, 2 characters = 0.5 tokens), finds it within budget, and
includes the `tasks` key in the result — the claim says the key would
be omitted with zero cost. -/
theorem filter_includes_empty_present_section :
    (filter_by_importance defaultPriorityOrder
        ⟨none, none, none, none, some [], none, none, none⟩ 100).tasks = some [] := rfl

/-- C5 (amended): a priority-order entry whose resolved section key is
*absent* from the ProjectState contributes nothing at all: the filter
result is the same as if the entry were not in the priority order (so
the section key is omitted and the running total unchanged), and no
error is raised. -/
theorem filter_skips_absent_section (st : ProjectState) (m : Nat) (p₁ p₂ : List String)
    (pk : String) (k : SKey) (hk : priorityMapping pk = some k)
    (hd : st.sectionDump k = none) :
    filter_by_importance (p₁ ++ pk :: p₂) st m = filter_by_importance (p₁ ++ p₂) st m := by
  have hstep : ∀ acc, filterStep st m acc pk = acc := fun acc => filterStep_absent st m acc pk k hk hd
  simp [filter_by_importance, List.foldl_append, hstep]

/-- C5 (witness): the amended theorem applied to a concrete state with
no `tasks` key, budget 5, and `current_tasks` inserted ahead of
`errors_and_issues`. -/
theorem filter_skips_absent_section_witness :
    filter_by_importance [("current_tasks"), ("errors_and_issues")]
        ⟨none, some [], none, none, none, none, none, none⟩ 5 =
      filter_by_importance [("errors_and_issues")]
        ⟨none, some [], none, none, none, none, none, none⟩ 5 :=
  filter_skips_absent_section ⟨none, some [], none, none, none, none, none, none⟩ 5
    [] [("errors_and_issues")] ("current_tasks") SKey.tasksKey rfl rfl

set_option maxRecDepth 8192 in
/-- C2 (counterexample): with priority order
`[errors_and_issues, current_tasks]`, `max_tokens = 100` and an errors
section serializing to 600 characters (estimated cost 150 tokens), a
lower-priority `tasks` section that fits the budget *is* still
included: the greedy loop skips only the over-budget section and keeps
going, contradicting "nor any lower-priority section". -/
theorem filter_greedy_keeps_fitting_lower_priority :
    ((dumpErrors [.docker ("c1") (String.mk (List.replicate 510 'a')) ("2026-01-01T00:00:00")]).length
        = 600 ∧
      (filter_by_importance [("errors_and_issues"), ("current_tasks")]
          ⟨none,
           some [.docker ("c1") (String.mk (List.replicate 510 'a')) ("2026-01-01T00:00:00")],
           none, none, some [⟨"t", "pending", "medium"⟩], none, none, none⟩ 100).tasks =
        some [⟨"t", "pending", "medium"⟩]) :=
  ⟨rfl, rfl⟩

/-- C2 (amended): with priority order `[errors_and_issues, current_tasks]`,
`max_tokens = 100` and an `errors_and_issues` section whose serialized
form has 600 characters (estimated cost 150 tokens > 100), the result
contains no `current_errors` key but does contain `project_info`;
lower-priority sections are decided by their own cost only. -/
theorem filter_over_budget_first_section (st : ProjectState) (es : List ErrorEntry)
    (h1 : st.current_errors = some es) (h2 : (dumpErrors es).length = 600) :
    ((filter_by_importance [("errors_and_issues"), ("current_tasks")] st 100).current_errors
        = none ∧
      (filter_by_importance [("errors_and_issues"), ("current_tasks")] st 100).project_info
        = some st.project_info) := by
  refine ⟨?_, rfl⟩
  have hstep1 : filterStep st 100 (emptyCompressed, 0) ("errors_and_issues") =
      (emptyCompressed, 0) := by
    have hsd : st.sectionDump SKey.errorsKey = some (dumpErrors es) := by
      simp [ProjectState.sectionDump, h1]
    have hpm : priorityMapping ("errors_and_issues") = some SKey.errorsKey := rfl
    simp [filterStep, hpm, hsd, h2]
  show ((List.foldl (filterStep st 100) (emptyCompressed, 0)
      [("errors_and_issues"), ("current_tasks")]).1).current_errors = none
  rw [List.foldl_cons, hstep1, List.foldl_cons, List.foldl_nil,
    filterStep_currentErrors st 100 (emptyCompressed, 0) ("current_tasks") (by decide)]
  rfl

set_option maxRecDepth 8192 in
/-- C2 (witness): the amended theorem applied to the concrete state of
the counterexample (errors section of exactly 600 serialized
characters). -/
theorem filter_over_budget_first_section_witness :
    (((filter_by_importance [("errors_and_issues"), ("current_tasks")]
          ⟨some ⟨"p", "/p", "python", none⟩,
           some [.docker ("c1") (String.mk (List.replicate 510 'a')) ("2026-01-01T00:00:00")],
           none, none, some [⟨"t", "pending", "medium"⟩], none, none, none⟩ 100).current_errors
        = none) ∧
      ((filter_by_importance [("errors_and_issues"), ("current_tasks")]
          ⟨some ⟨"p", "/p", "python", none⟩,
           some [.docker ("c1") (String.mk (List.replicate 510 'a')) ("2026-01-01T00:00:00")],
           none, none, some [⟨"t", "pending", "medium"⟩], none, none, none⟩ 100).project_info
        = some (some ⟨"p", "/p", "python", none⟩))) :=
  filter_over_budget_first_section
    ⟨some ⟨"p", "/p", "python", none⟩,
     some [.docker ("c1") (String.mk (List.replicate 510 'a')) ("2026-01-01T00:00:00")],
     none, none, some [⟨"t", "pending", "medium"⟩], none, none, none⟩
    [.docker ("c1") (String.mk (List.replicate 510 'a')) ("2026-01-01T00:00:00")] rfl rfl

/-- C3 (counterexample): `_get_project_info` is not exception-safe.  On a
project whose `CLAUDE.md` exists but cannot be read (e.g. undecodable
bytes or a permission error), the unguarded `open(...)/f.read(1000)`
propagates the failure to the caller instead of returning a default
payload. -/
theorem getProjectInfo_can_raise :
    getProjectInfo ⟨[(("CLAUDE.md"), Except.error ())]⟩ ("proj") ("/proj") =
      Except.error () := rfl

/-- C3 (amended): collectors that guard their I/O with a local
`try/except` never raise — `_extract_errors_from_file` returns normally
(with the entries gathered so far, i.e. `[]` on a failed read) for every
file system, file name and mtime; but `_get_project_info` performs an
unguarded README read and can propagate a failure. -/
theorem extract_errors_never_raises (fs : FS) (fname mtimeIso : String) :
    (extractErrorsFromFileE fs fname mtimeIso).isOk = true := by
  unfold extractErrorsFromFileE
  cases readF fs fname with
  | error e => rfl
  | ok content => rfl

/-- The dedup-and-cap loop keeps at most `cap` entries (for a positive
cap, as in the source where the cap is 10). -/
theorem dedupAux_length (l : List ErrorEntry) : ∀ (seen : List (String × String)) (cap : Nat),
    1 ≤ cap → (dedupAux l seen cap).length ≤ cap := by
  induction l with
  | nil => intro seen cap _; simp [dedupAux]
  | cons e rest ih =>
      intro seen cap hcap
      by_cases hs : errKey e ∈ seen
      · simpa [dedupAux, hs] using ih seen cap hcap
      · by_cases hc : cap ≤ 1
        · simp [dedupAux, hs, hc]
          omega
        · have h2 : 1 ≤ cap - 1 := by omega
          have := ih (errKey e :: seen) (cap - 1) h2
          simp [dedupAux, hs, hc, List.length_cons]
          omega

/-- The dedup-and-cap loop returns a sublist of its input. -/
theorem dedupAux_sublist (l : List ErrorEntry) : ∀ (seen : List (String × String)) (cap : Nat),
    List.Sublist (dedupAux l seen cap) l := by
  induction l with
  | nil => intro seen cap; simp [dedupAux]
  | cons e rest ih =>
      intro seen cap
      by_cases hs : errKey e ∈ seen
      · simpa [dedupAux, hs] using (ih seen cap).cons e
      · by_cases hc : cap ≤ 1
        · simp only [dedupAux, if_neg hs, if_pos hc]
          exact (List.nil_sublist rest).cons₂ e
        · simp only [dedupAux, if_neg hs, if_neg hc]
          exact (ih (errKey e :: seen) (cap - 1)).cons₂ e

/-- Entries surviving the dedup loop have pairwise-distinct keys, and
none of their keys was in the `seen` set the loop started from. -/
theorem dedupAux_keys (l : List ErrorEntry) : ∀ (seen : List (String × String)) (cap : Nat),
    ((∀ x ∈ dedupAux l seen cap, errKey x ∉ seen) ∧
      (dedupAux l seen cap).Pairwise (fun a b => errKey a ≠ errKey b)) := by
  induction l with
  | nil => intro seen cap; simp [dedupAux]
  | cons e rest ih =>
      intro seen cap
      by_cases hs : errKey e ∈ seen
      · simpa [dedupAux, hs] using ih seen cap
      · by_cases hc : cap ≤ 1
        · refine ⟨?_, ?_⟩
          · intro x hx
            simp [dedupAux, hs, hc] at hx
            rw [hx]
            exact hs
          · simp [dedupAux, hs, hc]
        · obtain ⟨ihseen, ihpw⟩ := ih (errKey e :: seen) (cap - 1)
          refine ⟨?_, ?_⟩
          · intro x hx
            simp only [dedupAux, if_neg hs, if_neg hc, List.mem_cons] at hx
            rcases hx with hx | hx
            · rw [hx]; exact hs
            · have := ihseen x hx
              simp only [List.mem_cons] at this
              exact fun hmem => this (Or.inr hmem)
          · simp only [dedupAux, if_neg hs, if_neg hc]
            refine List.Pairwise.cons ?_ ihpw
            intro x hx
            have := ihseen x hx
            simp only [List.mem_cons] at this
            exact fun he => this (Or.inl he.symm)

/-- C9: the post-processing of `_find_current_errors` (stable sort by
timestamp descending, dedup by `(type, message[:50])`, cap at 10)
returns, for every input, a list of at most 10 entries with
pairwise-distinct dedup keys, ordered by timestamp descending (each
later entry's timestamp is ≤ each earlier one's). -/
theorem find_current_errors_post_spec (errors : List ErrorEntry) :
    ((findCurrentErrorsPost errors).length ≤ 10 ∧
      (findCurrentErrorsPost errors).Pairwise (fun a b => errKey a ≠ errKey b) ∧
      (findCurrentErrorsPost errors).Pairwise tsDesc) := by
  refine ⟨dedupAux_length _ _ _ (by omega), (dedupAux_keys _ _ _).2, ?_⟩
  have hsorted : (sortErrorsDesc errors).Pairwise tsDesc :=
    List.sorted_insertionSort tsDesc errors
  exact hsorted.sublist (dedupAux_sublist _ _ _)

/-- C6 (counterexample): a CompressedState whose `recent_changes`
section is present but has no content (no commits, no files) still gets
the recent-changes heading — an empty heading, which the claim says
never appears.  The renderer checks only `'recent_changes' in state`. -/
theorem render_heading_for_empty_changes :
    ("## 📝 最近の変更") ∈
      formatForClaudeCodeLines ⟨none, none, some ⟨[], []⟩, none, none⟩ ("2026-01-01 00:00") := by
  decide

/-- C6 (amended): the critical-issues and current-tasks blocks appear
iff their backing section is present *and* non-empty (in particular an
empty `current_errors` list yields no critical-issues heading), but the
architecture and recent-changes blocks appear iff their key is present,
even when their content is empty. -/
theorem render_block_presence (s : CompressedState) (now : String) :
    ((("### 🚨 現在の問題") ∈ formatForClaudeCodeLines s now ↔
        ∃ es, s.current_errors = some es ∧ es ≠ []) ∧
      (("## 🎯 現在のタスク") ∈ formatForClaudeCodeLines s now ↔
        ∃ ts, s.tasks = some ts ∧ ts ≠ []) ∧
      (("## 🏗️ アーキテクチャ") ∈ formatForClaudeCodeLines s now ↔
        s.architecture.isSome = true) ∧
      (("## 📝 最近の変更") ∈ formatForClaudeCodeLines s now ↔
        s.recent_changes.isSome = true)) := by
  refine ⟨⟨?_, ?_⟩, ⟨?_, ?_⟩, ⟨?_, ?_⟩, ⟨?_, ?_⟩⟩
  · intro hx
    rcases mem_formatLines_cases s now _ hx with h | h | h | h | h | h | h
    · exact absurd h (by decide)
    · exact absurd (infoBlock_shape _ _ h) (by decide)
    · cases hoe : s.current_errors with
      | none => rw [hoe] at h; simp [errorsBlock] at h
      | some es =>
          cases es with
          | nil => rw [hoe] at h; simp [errorsBlock] at h
          | cons e es => exact ⟨e :: es, rfl, by simp⟩
    · exact absurd (archBlock_shape _ _ h) (by decide)
    · exact absurd (tasksBlock_shape _ _ h) (by decide)
    · exact absurd (changesBlock_shape _ _ h) (by decide)
    · exact absurd (footerLines_shape _ _ h) (by decide)
  · rintro ⟨es, hes, hne⟩
    apply mem_formatLines_of_errors
    rw [hes]
    have hef : es.isEmpty = false := by
      cases es with
      | nil => exact absurd rfl hne
      | cons e es => rfl
    simp [errorsBlock, hef]
  · intro hx
    rcases mem_formatLines_cases s now _ hx with h | h | h | h | h | h | h
    · exact absurd h (by decide)
    · exact absurd (infoBlock_shape _ _ h) (by decide)
    · exact absurd (errorsBlock_shape _ _ h) (by decide)
    · exact absurd (archBlock_shape _ _ h) (by decide)
    · cases hot : s.tasks with
      | none => rw [hot] at h; simp [tasksBlock] at h
      | some ts =>
          cases ts with
          | nil => rw [hot] at h; simp [tasksBlock] at h
          | cons t ts => exact ⟨t :: ts, rfl, by simp⟩
    · exact absurd (changesBlock_shape _ _ h) (by decide)
    · exact absurd (footerLines_shape _ _ h) (by decide)
  · rintro ⟨ts, hts, hne⟩
    apply mem_formatLines_of_tasks
    rw [hts]
    have hef : ts.isEmpty = false := by
      cases ts with
      | nil => exact absurd rfl hne
      | cons t ts => rfl
    simp [tasksBlock, hef]
  · intro hx
    rcases mem_formatLines_cases s now _ hx with h | h | h | h | h | h | h
    · exact absurd h (by decide)
    · exact absurd (infoBlock_shape _ _ h) (by decide)
    · exact absurd (errorsBlock_shape _ _ h) (by decide)
    · cases hoa : s.architecture with
      | none => rw [hoa] at h; simp [archBlock] at h
      | some a => rfl
    · exact absurd (tasksBlock_shape _ _ h) (by decide)
    · exact absurd (changesBlock_shape _ _ h) (by decide)
    · exact absurd (footerLines_shape _ _ h) (by decide)
  · intro hx
    obtain ⟨a, hoa⟩ := Option.isSome_iff_exists.mp hx
    apply mem_formatLines_of_arch
    rw [hoa]
    simp [archBlock]
  · intro hx
    rcases mem_formatLines_cases s now _ hx with h | h | h | h | h | h | h
    · exact absurd h (by decide)
    · exact absurd (infoBlock_shape _ _ h) (by decide)
    · exact absurd (errorsBlock_shape _ _ h) (by decide)
    · exact absurd (archBlock_shape _ _ h) (by decide)
    · exact absurd (tasksBlock_shape _ _ h) (by decide)
    · cases hoc : s.recent_changes with
      | none => rw [hoc] at h; simp [changesBlock] at h
      | some rc => rfl
    · exact absurd (footerLines_shape _ _ h) (by decide)
  · intro hx
    obtain ⟨rc, hoc⟩ := Option.isSome_iff_exists.mp hx
    apply mem_formatLines_of_changes
    rw [hoc]
    simp [changesBlock]

end UKF
